import Mathlib

/-!
Shallow embedding of the arbitrage/TWAP watcher (`arbitrage_opportunities/arby.py`,
with the companion variants `watcher.py` and `watcher_v3.py`).

Prices and timestamps are modelled as rationals (`ℚ`): the Python code does
exact-looking arithmetic on floats and datetime differences, and every claim is
about order/sign/mean structure, not rounding.  Python operations that can raise
(`lst[-1]` on an empty list, division by zero) are modelled with `Except Unit`,
`Except.error ()` standing for the raised exception.
-/

namespace Arby

/-- Constant `HISTORY_SIZE = 20` in `arby.py`. -/
def HISTORY_SIZE : Nat := 20

/-- Constant `ARBITRAGE_THRESHOLD = 0.02` in `arby.py`. -/
def ARBITRAGE_THRESHOLD : ℚ := 2 / 100

/-- Constant `TWAP_PERIOD = 60` (seconds) in `arby.py`. -/
def TWAP_PERIOD : ℚ := 60

/-- Constant `TWAP_THRESHOLD = 0.01` in `arby.py`. -/
def TWAP_THRESHOLD : ℚ := 1 / 100

/-- Model of `collections.deque(maxlen=n).append`: append on the right, evicting from the
left when the length would exceed `maxlen`. -/
def dequeAppend (maxlen : Nat) (l : List ℚ) (x : ℚ) : List ℚ :=
  let l2 := l ++ [x]
  if maxlen < l2.length then l2.drop (l2.length - maxlen) else l2

/-- The state of a `deque(maxlen=n)` after appending the elements of `xs` in
order, starting from empty — the buffer built by the main loop's history
appends. -/
def buildHistory (maxlen : Nat) (xs : List ℚ) : List ℚ :=
  xs.foldl (dequeAppend maxlen) []

/-- The last `k` elements of a list, in order (`l[-k:]` for `k > 0` clamps to
the whole list when `k ≥ len(l)`; `drop` does the same clamping). -/
def lastN (k : Nat) (l : List ℚ) : List ℚ :=
  l.drop (l.length - k)

/-- The quantity `history[-1] - history[0]` as computed by `determine_leader` in `arby.py`
(lines 75–77); the defaults are irrelevant because the function only evaluates
this on buffers of length ≥ `HISTORY_SIZE` > 0. -/
def netChange (h : List ℚ) : ℚ :=
  h.getLast?.getD 0 - h.headI

/-- Model of `max({'Binance': b, 'Bybit': y, 'Coinbase': c}, key=changes.get)`: Python's
`max` scans the keys in insertion order and replaces the current best only on a
strictly greater value, so the FIRST key attaining the maximum wins. -/
def pyMax3 (b y c : ℚ) : String :=
  if y > b then (if c > y then "Coinbase" else "Bybit")
  else (if c > b then "Coinbase" else "Binance")

/-- Function `determine_leader` from `arby.py` lines 71–84 (identical in
`watcher_v3.py` lines 59–72). -/
def determine_leader (binance_history bybit_history coinbase_history : List ℚ) : String :=
  if binance_history.length < HISTORY_SIZE ∨ bybit_history.length < HISTORY_SIZE ∨
      coinbase_history.length < HISTORY_SIZE then
    "Undetermined"
  else
    let binance_net_change := netChange binance_history
    let bybit_net_change := netChange bybit_history
    let coinbase_net_change := netChange coinbase_history
    let leader := pyMax3 binance_net_change bybit_net_change coinbase_net_change
    let leaderChange :=
      if leader = "Binance" then binance_net_change
      else if leader = "Bybit" then bybit_net_change
      else coinbase_net_change
    if leaderChange = 0 then "Undetermined" else leader

/-- Function `calculate_twap` from `arby.py` lines 90–100.  `timestamps[-1]` and
`prices[-1]` raise `IndexError` on an empty list: modelled as `Except.error ()`.
The `(None, None)` return for an empty window is `Except.ok (none, none)`. -/
def calculate_twap (prices timestamps : List ℚ) (period : ℚ) :
    Except Unit (Option ℚ × Option String) :=
  match timestamps.getLast? with
  | none => Except.error ()
  | some end_time =>
    let start_time := end_time - period
    let relevant_prices :=
      ((prices.zip timestamps).filter (fun pt => start_time ≤ pt.2)).map Prod.fst
    if relevant_prices.isEmpty then Except.ok (none, none)
    else
      match prices.getLast? with
      | none => Except.error ()
      | some lastPrice =>
        let twap := relevant_prices.sum / (relevant_prices.length : ℚ)
        Except.ok (some twap, some (if lastPrice > twap then "Ask" else "Bid"))

/-- The list `[abs(l[i] - l[i-1]) for i in range(1, len(l))]`. -/
def consecutiveAbsChanges (l : List ℚ) : List ℚ :=
  (l.zip l.tail).map (fun p => |p.2 - p.1|)

/-- Python's `l[-n:]`: for `n = 0` this is the WHOLE list (`l[-0:] = l[0:]`),
for `n > 0` the last `min n (len l)` elements. -/
def pySliceLast (l : List ℚ) (n : Nat) : List ℚ :=
  if n = 0 then l else lastN n l

/-- Function `detect_twap_pattern` from `arby.py` lines 102–110.  An empty
`price_changes` list makes `sum/len` raise `ZeroDivisionError`, modelled as
`Except.error ()` (unreachable in the program, which calls it with
`period = HISTORY_SIZE = 20`). -/
def detect_twap_pattern (prices : List ℚ) (period : Nat) (threshold : ℚ) :
    Except Unit Bool :=
  if prices.length < period then Except.ok false
  else
    let recent_prices := pySliceLast prices period
    let price_changes := consecutiveAbsChanges recent_prices
    if price_changes.length = 0 then Except.error ()
    else Except.ok (decide (price_changes.sum / (price_changes.length : ℚ) ≤ threshold))

/-- Function `estimate_twap_order_size` from `arby.py` lines 112–119. -/
def estimate_twap_order_size (prices : List ℚ) : Option ℚ :=
  if prices.length < 2 then none
  else
    let price_changes := consecutiveAbsChanges prices
    let average_change := price_changes.sum / (price_changes.length : ℚ)
    some (average_change * (prices.length : ℚ))

/-- The expression `((pA - pB) / pB) * 100`, the pairwise divergence percentage
(`arby.py` lines 154–156). -/
def divergence (pa pb : ℚ) : ℚ :=
  (pa - pb) / pb * 100

/-- The opportunity string built at `arby.py` lines 175/178/181 (color codes
elided: they are constant prefixes/suffixes common to every message). -/
def buySellMsg (buyEx sellEx : String) : String :=
  "Buy on " ++ buyEx ++ " and sell on " ++ sellEx

/-- The `if/elif/elif` arbitrage chain of `arby.py` lines 173–182: the pairs
are tested in the fixed order Binance–Bybit, Binance–Coinbase, Bybit–Coinbase
and only the first pair whose absolute divergence exceeds the threshold
produces (and logs) an opportunity.  `none` models the empty
`arbitrage_opportunity` string. -/
def arbitrage_opportunity (binance_price bybit_price coinbase_price threshold : ℚ) :
    Option String :=
  let dbb := divergence binance_price bybit_price
  let dbc := divergence binance_price coinbase_price
  let dyc := divergence bybit_price coinbase_price
  if threshold < |dbb| then
    some (buySellMsg (if 0 < dbb then "Bybit" else "Binance")
                     (if 0 < dbb then "Binance" else "Bybit"))
  else if threshold < |dbc| then
    some (buySellMsg (if 0 < dbc then "Coinbase" else "Binance")
                     (if 0 < dbc then "Binance" else "Coinbase"))
  else if threshold < |dyc| then
    some (buySellMsg (if 0 < dyc then "Coinbase" else "Bybit")
                     (if 0 < dyc then "Bybit" else "Coinbase"))
  else none

/-- The mutable per-run state owned by `main`'s loop in `arby.py`
(lines 126–137): one price history and one timestamp history per exchange,
plus the leadership tally. -/
structure LoopState where
  binance_history : List ℚ
  bybit_history : List ℚ
  coinbase_history : List ℚ
  binance_timestamps : List ℚ
  bybit_timestamps : List ℚ
  coinbase_timestamps : List ℚ
  binance_lead_count : Nat
  bybit_lead_count : Nat
  coinbase_lead_count : Nat
  total_checks : Nat
  deriving Repr, DecidableEq

/-- The initial loop state (`arby.py` lines 126–137: empty deques, zero
tallies). -/
def initState : LoopState :=
  ⟨[], [], [], [], [], [], 0, 0, 0, 0⟩

/-- The per-cycle output bundle the complete-cycle branch computes and hands to
the table printer (`arby.py` lines 154–216): pairwise divergences, the leader,
the (optional) arbitrage-opportunity message, and the per-exchange TWAP
results. -/
structure CycleOutput where
  diff_binance_bybit : ℚ
  diff_binance_coinbase : ℚ
  diff_bybit_coinbase : ℚ
  leader : String
  arbitrage : Option String
  binance_twap : Option ℚ × Option String
  bybit_twap : Option ℚ × Option String
  coinbase_twap : Option ℚ × Option String
  binance_twap_detected : Bool
  bybit_twap_detected : Bool
  coinbase_twap_detected : Bool
  binance_twap_order_size : Option ℚ
  bybit_twap_order_size : Option ℚ
  coinbase_twap_order_size : Option ℚ
  deriving Repr, DecidableEq

/-- Helper for the conditional history appends of `arby.py` lines 143–151:
append only when the fetched price is present. -/
def maybeAppend (l : List ℚ) (p : Option ℚ) (v : ℚ) : List ℚ :=
  match p with
  | some _ => dequeAppend HISTORY_SIZE l v
  | none => l

/-- One iteration of the `while True` loop of `arby.py` `main` (lines
139–220), given the three fetched prices (`none` models a failed fetch
returning Python `None`) and the cycle's `current_time`.  Histories advance for
each present price; the analytics branch runs only when all three prices are
present, in which case the output bundle is `some`.  `Except.error ()`
propagates any exception the analytics would raise. -/
def cycle (s : LoopState) (binance_price bybit_price coinbase_price : Option ℚ)
    (current_time : ℚ) : Except Unit (LoopState × Option CycleOutput) :=
  let bh := maybeAppend s.binance_history binance_price (binance_price.getD 0)
  let bts := maybeAppend s.binance_timestamps binance_price current_time
  let yh := maybeAppend s.bybit_history bybit_price (bybit_price.getD 0)
  let yts := maybeAppend s.bybit_timestamps bybit_price current_time
  let ch := maybeAppend s.coinbase_history coinbase_price (coinbase_price.getD 0)
  let cts := maybeAppend s.coinbase_timestamps coinbase_price current_time
  match binance_price, bybit_price, coinbase_price with
  | some bp, some yp, some cp =>
    let dbb := divergence bp yp
    let dbc := divergence bp cp
    let dyc := divergence yp cp
    let leader := determine_leader bh yh ch
    let s1 : LoopState :=
      { binance_history := bh, bybit_history := yh, coinbase_history := ch
        binance_timestamps := bts, bybit_timestamps := yts, coinbase_timestamps := cts
        binance_lead_count := s.binance_lead_count + (if leader = "Binance" then 1 else 0)
        bybit_lead_count := s.bybit_lead_count + (if leader = "Bybit" then 1 else 0)
        coinbase_lead_count := s.coinbase_lead_count + (if leader = "Coinbase" then 1 else 0)
        total_checks := s.total_checks + 1 }
    let arb := arbitrage_opportunity bp yp cp ARBITRAGE_THRESHOLD
    match calculate_twap bh bts TWAP_PERIOD, calculate_twap yh yts TWAP_PERIOD,
        calculate_twap ch cts TWAP_PERIOD with
    | Except.ok tb, Except.ok ty, Except.ok tc =>
      match detect_twap_pattern bh HISTORY_SIZE TWAP_THRESHOLD,
          detect_twap_pattern yh HISTORY_SIZE TWAP_THRESHOLD,
          detect_twap_pattern ch HISTORY_SIZE TWAP_THRESHOLD with
      | Except.ok db, Except.ok dy, Except.ok dc =>
        Except.ok (s1, some
          { diff_binance_bybit := dbb, diff_binance_coinbase := dbc
            diff_bybit_coinbase := dyc, leader := leader, arbitrage := arb
            binance_twap := tb, bybit_twap := ty, coinbase_twap := tc
            binance_twap_detected := db, bybit_twap_detected := dy
            coinbase_twap_detected := dc
            binance_twap_order_size := estimate_twap_order_size bh
            bybit_twap_order_size := estimate_twap_order_size yh
            coinbase_twap_order_size := estimate_twap_order_size ch })
      | _, _, _ => Except.error ()
    | _, _, _ => Except.error ()
  | _, _, _ =>
    Except.ok
      ({ binance_history := bh, bybit_history := yh, coinbase_history := ch
         binance_timestamps := bts, bybit_timestamps := yts, coinbase_timestamps := cts
         binance_lead_count := s.binance_lead_count
         bybit_lead_count := s.bybit_lead_count
         coinbase_lead_count := s.coinbase_lead_count
         total_checks := s.total_checks }, none)

/-- Following the spec's words for TWAP: the prices of all samples whose
timestamp lies within the closed window `[endTime - period, endTime]`
(both bounds, unlike the code's filter, which only checks the lower bound). -/
def twapWindowPrices (prices timestamps : List ℚ) (period endTime : ℚ) : List ℚ :=
  ((prices.zip timestamps).filter
    (fun pt => endTime - period ≤ pt.2 ∧ pt.2 ≤ endTime)).map Prod.fst

end Arby

namespace Arby

/-! ### Generic list helpers -/

lemma lastN_of_le (k : Nat) (l : List ℚ) (h : l.length ≤ k) : lastN k l = l := by
  unfold lastN
  rw [Nat.sub_eq_zero_of_le h, List.drop_zero]

lemma length_lastN (k : Nat) (l : List ℚ) : (lastN k l).length = min k l.length := by
  unfold lastN
  rw [List.length_drop]
  omega

lemma dequeAppend_eq_lastN (k : Nat) (l : List ℚ) (x : ℚ) :
    dequeAppend k l x = lastN k (l ++ [x]) := by
  simp only [dequeAppend, lastN]
  split_ifs with h1
  · rfl
  · rw [Nat.sub_eq_zero_of_le (by omega), List.drop_zero]

lemma length_dequeAppend_le (k : Nat) (l : List ℚ) (x : ℚ) :
    (dequeAppend k l x).length ≤ k ⊔ (l.length + 1) := by
  rw [dequeAppend_eq_lastN k l x, length_lastN]
  simp only [List.length_append, List.length_singleton]
  omega

lemma lastN_append_lastN (k : Nat) (m xs : List ℚ) :
    lastN k (lastN k m ++ xs) = lastN k (m ++ xs) := by
  unfold lastN
  rw [← List.drop_append_of_le_length (show m.length - k ≤ m.length by omega),
    List.drop_drop]
  congr 1
  simp only [List.length_drop, List.length_append]
  omega

lemma foldl_dequeAppend (k : Nat) (xs : List ℚ) : ∀ l : List ℚ, l.length ≤ k →
    xs.foldl (dequeAppend k) l = lastN k (l ++ xs) := by
  induction xs with
  | nil => intro l h; simp [lastN_of_le k l h]
  | cons x xs ih =>
    intro l h
    have hlen : (dequeAppend k l x).length ≤ k := by
      have := length_dequeAppend_le k l x
      rw [dequeAppend_eq_lastN k l x, length_lastN]
      omega
    rw [List.foldl_cons, ih _ hlen, dequeAppend_eq_lastN k l x, lastN_append_lastN]
    simp

lemma buildHistory_eq (k : Nat) (xs : List ℚ) : buildHistory k xs = lastN k xs := by
  unfold buildHistory
  rw [foldl_dequeAppend k xs [] (by simp)]
  simp

lemma dequeAppend_of_full (k : Nat) (l : List ℚ) (x : ℚ) (hk : 0 < k)
    (h : l.length = k) : dequeAppend k l x = l.tail ++ [x] := by
  simp only [dequeAppend, List.length_append, List.length_singleton]
  rw [if_pos (by omega)]
  have h1 : l.length + 1 - k = 1 := by omega
  rw [h1, List.drop_append_of_le_length (by omega), List.drop_one]

/-! ### Leadership helpers -/

lemma pyMax3_val (b y c : ℚ) :
    (if pyMax3 b y c = "Binance" then b else if pyMax3 b y c = "Bybit" then y else c) =
      max b (max y c) := by
  have hCB : ("Coinbase" : String) ≠ "Binance" := by decide
  have hCY : ("Coinbase" : String) ≠ "Bybit" := by decide
  have hYB : ("Bybit" : String) ≠ "Binance" := by decide
  unfold pyMax3
  rcases lt_or_le b y with h1 | h1
  · rw [if_pos (show y > b from h1)]
    rcases lt_or_le y c with h2 | h2
    · rw [if_pos (show c > y from h2), if_neg hCB, if_neg hCY,
        max_eq_right h2.le, max_eq_right (h1.trans h2).le]
    · rw [if_neg (show ¬ c > y from not_lt.2 h2), if_neg hYB, if_pos rfl,
        max_eq_left h2, max_eq_right h1.le]
  · rw [if_neg (show ¬ y > b from not_lt.2 h1)]
    rcases lt_or_le b c with h3 | h3
    · rw [if_pos (show c > b from h3), if_neg hCB, if_neg hCY,
        max_eq_right (h1.trans h3.le), max_eq_right h3.le]
    · rw [if_neg (show ¬ c > b from not_lt.2 h3), if_pos rfl,
        max_eq_left (max_le h1 h3)]

lemma pyMax3_ne_undetermined (b y c : ℚ) : pyMax3 b y c ≠ "Undetermined" := by
  unfold pyMax3
  split_ifs <;> decide

lemma pyMax3_max_cases (b y c : ℚ) :
    (y ≤ b ∧ c ≤ b → pyMax3 b y c = "Binance") ∧
    (b < y ∧ c ≤ y → pyMax3 b y c = "Bybit") ∧
    (b < c ∧ y < c → pyMax3 b y c = "Coinbase") := by
  unfold pyMax3
  refine ⟨fun h => ?_, fun h => ?_, fun h => ?_⟩
  · rw [if_neg (show ¬ y > b from not_lt.2 h.1), if_neg (show ¬ c > b from not_lt.2 h.2)]
  · rw [if_pos (show y > b from h.1), if_neg (show ¬ c > y from not_lt.2 h.2)]
  · rcases lt_or_le b y with h1 | h1
    · rw [if_pos (show y > b from h1), if_pos (show c > y from h.2)]
    · rw [if_neg (show ¬ y > b from not_lt.2 h1), if_pos (show c > b from h.1)]

lemma pyMax3_inv (b y c : ℚ) :
    (pyMax3 b y c = "Binance" → y ≤ b ∧ c ≤ b) ∧
    (pyMax3 b y c = "Bybit" → b < y ∧ c ≤ y) ∧
    (pyMax3 b y c = "Coinbase" → b < c ∧ y < c) := by
  unfold pyMax3
  split_ifs with h1 h2 h3 <;> refine ⟨fun hx => ?_, fun hx => ?_, fun hx => ?_⟩ <;>
    first
      | exact absurd hx (by decide)
      | constructor <;> linarith

/-- On full buffers, `determine_leader` reduces to: "Undetermined" when the
maximum net change is zero, else the first exchange (in the order Binance,
Bybit, Coinbase) attaining the maximum. -/
lemma determine_leader_full (bh yh ch : List ℚ) (hb : HISTORY_SIZE ≤ bh.length)
    (hy : HISTORY_SIZE ≤ yh.length) (hc : HISTORY_SIZE ≤ ch.length) :
    determine_leader bh yh ch =
      if max (netChange bh) (max (netChange yh) (netChange ch)) = 0 then "Undetermined"
      else pyMax3 (netChange bh) (netChange yh) (netChange ch) := by
  unfold determine_leader
  rw [if_neg (by simp only [not_or, not_lt]; exact ⟨hb, hy, hc⟩)]
  simp only
  rw [pyMax3_val]

lemma sorted_le_getLast (l : List ℚ) (h : l.Sorted (· ≤ ·)) (x : ℚ) (hx : x ∈ l)
    (hne : l ≠ []) : x ≤ l.getLast hne := by
  obtain ⟨i, hi, rfl⟩ := List.getElem_of_mem hx
  rw [List.getLast_eq_getElem]
  rcases eq_or_lt_of_le (Nat.le_sub_one_of_lt hi) with he | hlt
  · simp [he]
  · have h2 := h.rel_get_of_lt (a := ⟨i, hi⟩) (b := ⟨l.length - 1, by omega⟩) hlt
    simpa using h2

/-! ### Divergence and arbitrage helpers -/

lemma divergence_pos_iff (pa pb : ℚ) (h : 0 < pb) : 0 < divergence pa pb ↔ pb < pa := by
  unfold divergence
  rw [div_mul_eq_mul_div, lt_div_iff₀ h]
  constructor <;> intro h1 <;> nlinarith

lemma divergence_neg_iff (pa pb : ℚ) (h : 0 < pb) : divergence pa pb < 0 ↔ pa < pb := by
  unfold divergence
  rw [div_mul_eq_mul_div, div_lt_iff₀ h]
  constructor <;> intro h1 <;> nlinarith

/-- The four mutually-exclusive outcomes of the `if/elif/elif` arbitrage chain,
by first breaching pair in the fixed order BB, BC, YC. -/
lemma arbitrage_opportunity_cases (bp yp cp th : ℚ) :
    (th < |divergence bp yp| →
      arbitrage_opportunity bp yp cp th =
        some (buySellMsg (if 0 < divergence bp yp then "Bybit" else "Binance")
          (if 0 < divergence bp yp then "Binance" else "Bybit"))) ∧
    (¬ th < |divergence bp yp| → th < |divergence bp cp| →
      arbitrage_opportunity bp yp cp th =
        some (buySellMsg (if 0 < divergence bp cp then "Coinbase" else "Binance")
          (if 0 < divergence bp cp then "Binance" else "Coinbase"))) ∧
    (¬ th < |divergence bp yp| → ¬ th < |divergence bp cp| → th < |divergence yp cp| →
      arbitrage_opportunity bp yp cp th =
        some (buySellMsg (if 0 < divergence yp cp then "Coinbase" else "Bybit")
          (if 0 < divergence yp cp then "Bybit" else "Coinbase"))) ∧
    (¬ th < |divergence bp yp| → ¬ th < |divergence bp cp| → ¬ th < |divergence yp cp| →
      arbitrage_opportunity bp yp cp th = none) := by
  unfold arbitrage_opportunity
  simp only
  refine ⟨fun h1 => ?_, fun h1 h2 => ?_, fun h1 h2 h3 => ?_, fun h1 h2 h3 => ?_⟩
  · rw [if_pos h1]
  · rw [if_neg h1, if_pos h2]
  · rw [if_neg h1, if_neg h2, if_pos h3]
  · rw [if_neg h1, if_neg h2, if_neg h3]

/-! ### TWAP-pattern helpers -/

lemma length_consecutiveAbsChanges (l : List ℚ) :
    (consecutiveAbsChanges l).length = l.length - 1 := by
  simp only [consecutiveAbsChanges, List.length_map, List.length_zip, List.length_tail]
  omega

lemma consecutiveAbsChanges_replicate (n : Nat) (p : ℚ) :
    consecutiveAbsChanges (List.replicate n p) = List.replicate (n - 1) 0 := by
  unfold consecutiveAbsChanges
  rw [List.tail_replicate, List.zip_replicate, List.map_replicate]
  simp only [sub_self, abs_zero]
  congr 1
  omega

/-! ### Poll-loop helpers -/

/-- On any incomplete cycle (at least one fetch failed), `cycle` returns
`none` output, appends only for present prices and leaves tallies alone. -/
lemma cycle_incomplete (s : LoopState) (bp yp cp : Option ℚ) (t : ℚ)
    (hfail : bp = none ∨ yp = none ∨ cp = none) :
    cycle s bp yp cp t = Except.ok
      ({ binance_history := maybeAppend s.binance_history bp (bp.getD 0)
         bybit_history := maybeAppend s.bybit_history yp (yp.getD 0)
         coinbase_history := maybeAppend s.coinbase_history cp (cp.getD 0)
         binance_timestamps := maybeAppend s.binance_timestamps bp t
         bybit_timestamps := maybeAppend s.bybit_timestamps yp t
         coinbase_timestamps := maybeAppend s.coinbase_timestamps cp t
         binance_lead_count := s.binance_lead_count
         bybit_lead_count := s.bybit_lead_count
         coinbase_lead_count := s.coinbase_lead_count
         total_checks := s.total_checks }, none) := by
  rcases bp with _ | p1 <;> rcases yp with _ | p2 <;> rcases cp with _ | p3 <;>
    first
      | rfl
      | simp at hfail

/-! ### Claim theorems -/

/-- C1, counterexample: with all three buffers full and net changes
`(1, 1, 0)` — a strictly positive maximum attained by BOTH Binance and Bybit —
`determine_leader` declares "Binance" rather than returning "Undetermined",
refuting the claim's no-leader-on-a-tie policy. -/
theorem determine_leader_tie_declares_leader_cex :
    (List.replicate 19 (100 : ℚ) ++ [101]).length = HISTORY_SIZE ∧
    (List.replicate 20 (100 : ℚ)).length = HISTORY_SIZE ∧
    netChange (List.replicate 19 (100 : ℚ) ++ [101]) = 1 ∧
    netChange (List.replicate 20 (100 : ℚ)) = 0 ∧
    determine_leader (List.replicate 19 (100 : ℚ) ++ [101])
      (List.replicate 19 (100 : ℚ) ++ [101]) (List.replicate 20 (100 : ℚ)) = "Binance" ∧
    determine_leader (List.replicate 19 (100 : ℚ) ++ [101])
      (List.replicate 19 (100 : ℚ) ++ [101]) (List.replicate 20 (100 : ℚ)) ≠
        "Undetermined" := by
  have hb : netChange (List.replicate 19 (100 : ℚ) ++ [101]) = 1 := by
    simp [netChange, List.replicate_succ]
    norm_num
  have hc : netChange (List.replicate 20 (100 : ℚ)) = 0 := by
    simp [netChange, List.replicate_succ]
  have hlead : determine_leader (List.replicate 19 (100 : ℚ) ++ [101])
      (List.replicate 19 (100 : ℚ) ++ [101]) (List.replicate 20 (100 : ℚ)) = "Binance" := by
    rw [determine_leader_full _ _ _ (by simp [HISTORY_SIZE]) (by simp [HISTORY_SIZE])
      (by simp [HISTORY_SIZE]), hb, hc]
    norm_num [pyMax3]
  exact ⟨by simp [HISTORY_SIZE], by simp [HISTORY_SIZE], hb, hc, hlead,
    by rw [hlead]; decide⟩

/-- C1, amended: when all three exchange buffers are full, the leadership
computation returns "Undetermined" exactly when the maximum net change equals
zero; any nonzero maximum — even a negative one, or one attained by several
exchanges — declares a leader. -/
theorem determine_leader_undetermined_iff_max_zero (bh yh ch : List ℚ)
    (hb : HISTORY_SIZE ≤ bh.length) (hy : HISTORY_SIZE ≤ yh.length)
    (hc : HISTORY_SIZE ≤ ch.length) :
    determine_leader bh yh ch = "Undetermined" ↔
      max (netChange bh) (max (netChange yh) (netChange ch)) = 0 := by
  rw [determine_leader_full bh yh ch hb hy hc]
  split_ifs with h
  · simp [h]
  · simp [h, pyMax3_ne_undetermined]

/-- Witness for the amended C1: three constant full buffers have maximum net
change zero and the leader is "Undetermined". -/
theorem determine_leader_undetermined_iff_max_zero_witness :
    determine_leader (List.replicate 20 (5 : ℚ)) (List.replicate 20 (5 : ℚ))
      (List.replicate 20 (5 : ℚ)) = "Undetermined" := by
  have h5 : netChange (List.replicate 20 (5 : ℚ)) = 0 := by
    simp [netChange, List.replicate_succ]
  rw [determine_leader_undetermined_iff_max_zero (List.replicate 20 (5 : ℚ))
    (List.replicate 20 (5 : ℚ)) (List.replicate 20 (5 : ℚ)) (by simp [HISTORY_SIZE])
    (by simp [HISTORY_SIZE]) (by simp [HISTORY_SIZE]), h5]
  norm_num

/-- C6, counterexample: with full buffers and net changes `(2, 2, 0)`,
`determine_leader` declares "Binance", yet Binance's net change is NOT
strictly greater than Bybit's — no exchange attains a strictly greatest net
change, refuting the claim that a declared leader always does. -/
theorem determine_leader_no_strict_max_cex :
    determine_leader (List.replicate 19 (50 : ℚ) ++ [52])
      (List.replicate 19 (50 : ℚ) ++ [52]) (List.replicate 20 (50 : ℚ)) = "Binance" ∧
    ¬ netChange (List.replicate 19 (50 : ℚ) ++ [52]) <
        netChange (List.replicate 19 (50 : ℚ) ++ [52]) := by
  have hb : netChange (List.replicate 19 (50 : ℚ) ++ [52]) = 2 := by
    simp [netChange, List.replicate_succ]
    norm_num
  have hc : netChange (List.replicate 20 (50 : ℚ)) = 0 := by
    simp [netChange, List.replicate_succ]
  refine ⟨?_, lt_irrefl _⟩
  rw [determine_leader_full _ _ _ (by simp [HISTORY_SIZE]) (by simp [HISTORY_SIZE])
    (by simp [HISTORY_SIZE]), hb, hc]
  norm_num [pyMax3]

/-- C6, amended: leadership is "Undetermined" whenever a buffer is short of
`HISTORY_SIZE`; the net change of a buffer is its newest price minus its
oldest price; and on full buffers a declared leader attains the (weak)
maximum net change, which is nonzero — but need not be strictly greater than
every other exchange's. -/
theorem determine_leader_attains_weak_max (bh yh ch : List ℚ) :
    (bh.length < HISTORY_SIZE ∨ yh.length < HISTORY_SIZE ∨ ch.length < HISTORY_SIZE →
      determine_leader bh yh ch = "Undetermined") ∧
    (∀ (l : List ℚ) (hne : l ≠ []), netChange l = l.getLast hne - l.head hne) ∧
    (HISTORY_SIZE ≤ bh.length → HISTORY_SIZE ≤ yh.length → HISTORY_SIZE ≤ ch.length →
      (determine_leader bh yh ch = "Binance" →
        netChange bh ≠ 0 ∧ netChange yh ≤ netChange bh ∧ netChange ch ≤ netChange bh) ∧
      (determine_leader bh yh ch = "Bybit" →
        netChange yh ≠ 0 ∧ netChange bh ≤ netChange yh ∧ netChange ch ≤ netChange yh) ∧
      (determine_leader bh yh ch = "Coinbase" →
        netChange ch ≠ 0 ∧ netChange bh ≤ netChange ch ∧ netChange yh ≤ netChange ch)) := by
  refine ⟨fun h => ?_, fun l hne => ?_, fun hb hy hc => ?_⟩
  · unfold determine_leader
    rw [if_pos h]
  · rcases l with _ | ⟨a, t⟩
    · exact absurd rfl hne
    · simp [netChange, List.getLast?_eq_getLast _ hne]
  · rw [determine_leader_full bh yh ch hb hy hc]
    split_ifs with h
    · exact ⟨fun hx => absurd hx (by decide), fun hx => absurd hx (by decide),
        fun hx => absurd hx (by decide)⟩
    · refine ⟨fun hx => ?_, fun hx => ?_, fun hx => ?_⟩
      · obtain ⟨h1, h2⟩ := (pyMax3_inv _ _ _).1 hx
        refine ⟨fun h0 => h ?_, h1, h2⟩
        rw [max_eq_left (max_le h1 h2), h0]
      · obtain ⟨h1, h2⟩ := (pyMax3_inv _ _ _).2.1 hx
        refine ⟨fun h0 => h ?_, h1.le, h2⟩
        rw [max_eq_left h2, max_eq_right h1.le, h0]
      · obtain ⟨h1, h2⟩ := (pyMax3_inv _ _ _).2.2 hx
        refine ⟨fun h0 => h ?_, h1.le, h2.le⟩
        rw [max_eq_right h2.le, max_eq_right h1.le, h0]

/-- Witness for the amended C6: short empty buffers are "Undetermined", and on
full buffers with net changes `(3, 0, -1)` the declared leader "Binance"
attains the weak maximum with nonzero net change. -/
theorem determine_leader_attains_weak_max_witness :
    determine_leader [] [] [] = "Undetermined" ∧
    (netChange (List.replicate 19 (10 : ℚ) ++ [13]) ≠ 0 ∧
      netChange (List.replicate 20 (10 : ℚ)) ≤ netChange (List.replicate 19 (10 : ℚ) ++ [13]) ∧
      netChange (List.replicate 19 (10 : ℚ) ++ [9]) ≤
        netChange (List.replicate 19 (10 : ℚ) ++ [13])) := by
  have hb : netChange (List.replicate 19 (10 : ℚ) ++ [13]) = 3 := by
    simp [netChange, List.replicate_succ]
    norm_num
  have hy : netChange (List.replicate 20 (10 : ℚ)) = 0 := by
    simp [netChange, List.replicate_succ]
  have hc : netChange (List.replicate 19 (10 : ℚ) ++ [9]) = -1 := by
    simp [netChange, List.replicate_succ]
    norm_num
  have hlead : determine_leader (List.replicate 19 (10 : ℚ) ++ [13])
      (List.replicate 20 (10 : ℚ)) (List.replicate 19 (10 : ℚ) ++ [9]) = "Binance" := by
    rw [determine_leader_full _ _ _ (by simp [HISTORY_SIZE]) (by simp [HISTORY_SIZE])
      (by simp [HISTORY_SIZE]), hb, hy, hc]
    norm_num [pyMax3]
  refine ⟨(determine_leader_attains_weak_max [] [] []).1 (by simp [HISTORY_SIZE]), ?_⟩
  exact ((determine_leader_attains_weak_max _ _ _).2.2 (by simp [HISTORY_SIZE])
    (by simp [HISTORY_SIZE]) (by simp [HISTORY_SIZE])).1 hlead

/-- C10: when all three buffers are full and two or more exchanges tie for a
strictly positive maximum net change `m`, `determine_leader` does not return
"Undetermined" but the tied exchange that comes first in the fixed order
Binance, Bybit, Coinbase — Binance when it attains `m`, otherwise Bybit (the
first of a two-or-more-way tie is never Coinbase). -/
theorem determine_leader_tie_first_in_order (bh yh ch : List ℚ) (m : ℚ)
    (hb : HISTORY_SIZE ≤ bh.length) (hy : HISTORY_SIZE ≤ yh.length)
    (hc : HISTORY_SIZE ≤ ch.length)
    (hm : m = max (netChange bh) (max (netChange yh) (netChange ch)))
    (hpos : 0 < m)
    (htie : (netChange bh = m ∧ netChange yh = m) ∨
      (netChange bh = m ∧ netChange ch = m) ∨
      (netChange yh = m ∧ netChange ch = m)) :
    determine_leader bh yh ch ≠ "Undetermined" ∧
    determine_leader bh yh ch = (if netChange bh = m then "Binance" else "Bybit") := by
  have hble : netChange bh ≤ m := by rw [hm]; exact le_max_left _ _
  have hyle : netChange yh ≤ m := by
    rw [hm]; exact le_trans (le_max_left _ _) (le_max_right _ _)
  have hcle : netChange ch ≤ m := by
    rw [hm]; exact le_trans (le_max_right _ _) (le_max_right _ _)
  rw [determine_leader_full bh yh ch hb hy hc,
    if_neg (show ¬ max (netChange bh) (max (netChange yh) (netChange ch)) = 0 from by
      rw [← hm]; exact ne_of_gt hpos)]
  by_cases hbm : netChange bh = m
  · rw [if_pos hbm]
    exact ⟨pyMax3_ne_undetermined _ _ _,
      (pyMax3_max_cases _ _ _).1 ⟨hbm ▸ hyle, hbm ▸ hcle⟩⟩
  · rw [if_neg hbm]
    rcases htie with ⟨h1, _⟩ | ⟨h1, _⟩ | ⟨h1, h2⟩
    · exact absurd h1 hbm
    · exact absurd h1 hbm
    · have hblt : netChange bh < m := lt_of_le_of_ne hble hbm
      exact ⟨pyMax3_ne_undetermined _ _ _,
        (pyMax3_max_cases _ _ _).2.1 ⟨h1 ▸ hblt, by rw [h1, h2]⟩⟩

/-- Witness for C10: full buffers with net changes `(3, 3, 0)` — Binance and
Bybit tie for the positive maximum — yield leader "Binance". -/
theorem determine_leader_tie_first_in_order_witness :
    determine_leader (List.replicate 19 (200 : ℚ) ++ [203])
      (List.replicate 19 (200 : ℚ) ++ [203]) (List.replicate 20 (200 : ℚ)) = "Binance" := by
  have hb : netChange (List.replicate 19 (200 : ℚ) ++ [203]) = 3 := by
    simp [netChange, List.replicate_succ]
    norm_num
  have hc : netChange (List.replicate 20 (200 : ℚ)) = 0 := by
    simp [netChange, List.replicate_succ]
  have h := determine_leader_tie_first_in_order
    (List.replicate 19 (200 : ℚ) ++ [203]) (List.replicate 19 (200 : ℚ) ++ [203])
    (List.replicate 20 (200 : ℚ)) 3 (by simp [HISTORY_SIZE]) (by simp [HISTORY_SIZE])
    (by simp [HISTORY_SIZE]) (by rw [hb, hc]; norm_num) (by norm_num)
    (Or.inl ⟨hb, hb⟩)
  rw [h.2, if_pos hb]

/-- C2 (the code contradicts it): applying the TWAP computation to an empty
buffer does NOT yield the undefined `(None, None)` result — `timestamps[-1]`
raises `IndexError` (modelled `Except.error ()`) before the empty-window guard
at line 95 of `arby.py` can fire. -/
theorem calculate_twap_empty_buffer_crashes :
    calculate_twap ([] : List ℚ) ([] : List ℚ) TWAP_PERIOD = Except.error () := rfl

/-- C9: starting from an empty buffer, any sequence of appends leaves the
history equal to the suffix of the most recent `HISTORY_SIZE` appended samples
in arrival order, its length is `min n HISTORY_SIZE` (so never exceeds
`HISTORY_SIZE`), and an append to a full buffer evicts exactly the oldest
sample (FIFO). -/
theorem history_buffer_bounded_fifo (xs l : List ℚ) (x : ℚ) :
    buildHistory HISTORY_SIZE xs = xs.drop (xs.length - HISTORY_SIZE) ∧
    (buildHistory HISTORY_SIZE xs).length = min xs.length HISTORY_SIZE ∧
    (buildHistory HISTORY_SIZE xs).length ≤ HISTORY_SIZE ∧
    (l.length = HISTORY_SIZE → dequeAppend HISTORY_SIZE l x = l.tail ++ [x]) := by
  have h1 := buildHistory_eq HISTORY_SIZE xs
  have h2 : (buildHistory HISTORY_SIZE xs).length = min xs.length HISTORY_SIZE := by
    rw [h1, length_lastN]
    omega
  exact ⟨h1, h2, by omega,
    fun hl => dequeAppend_of_full HISTORY_SIZE l x (by norm_num [HISTORY_SIZE]) hl⟩

/-- Witness for C9: two appends stay `[1, 2]`; an append to a full buffer of
twenty sevens drops the oldest seven. -/
theorem history_buffer_bounded_fifo_witness :
    buildHistory HISTORY_SIZE [(1 : ℚ), 2] = [1, 2] ∧
    dequeAppend HISTORY_SIZE (List.replicate 20 (7 : ℚ)) 8 =
      List.replicate 19 (7 : ℚ) ++ [8] := by
  have h := history_buffer_bounded_fifo [(1 : ℚ), 2] (List.replicate 20 (7 : ℚ)) 8
  refine ⟨?_, ?_⟩
  · rw [h.1]
    norm_num [HISTORY_SIZE]
  · rw [h.2.2.2 (by simp [HISTORY_SIZE])]
    rw [show (20 : Nat) = 19 + 1 from rfl, List.replicate_succ, List.tail_cons]

/-- C4: in a complete cycle, the pairs are evaluated in the fixed order
Binance–Bybit, Binance–Coinbase, Bybit–Coinbase and only the FIRST pair whose
absolute divergence exceeds the threshold is reported (the first conjunct fixes
the output to the Binance–Bybit message for all values of the other two
divergences, so later breaching pairs are never reported in that cycle);
when no pair breaches, nothing is reported. -/
theorem arbitrage_first_breaching_pair_only (bp yp cp th : ℚ) :
    (th < |divergence bp yp| →
      arbitrage_opportunity bp yp cp th =
        some (buySellMsg (if 0 < divergence bp yp then "Bybit" else "Binance")
          (if 0 < divergence bp yp then "Binance" else "Bybit"))) ∧
    (¬ th < |divergence bp yp| → th < |divergence bp cp| →
      arbitrage_opportunity bp yp cp th =
        some (buySellMsg (if 0 < divergence bp cp then "Coinbase" else "Binance")
          (if 0 < divergence bp cp then "Binance" else "Coinbase"))) ∧
    (¬ th < |divergence bp yp| → ¬ th < |divergence bp cp| → th < |divergence yp cp| →
      arbitrage_opportunity bp yp cp th =
        some (buySellMsg (if 0 < divergence yp cp then "Coinbase" else "Bybit")
          (if 0 < divergence yp cp then "Bybit" else "Coinbase"))) ∧
    (¬ th < |divergence bp yp| → ¬ th < |divergence bp cp| → ¬ th < |divergence yp cp| →
      arbitrage_opportunity bp yp cp th = none) :=
  arbitrage_opportunity_cases bp yp cp th

/-- Witness for C4: both the Binance–Bybit and the Bybit–Coinbase pairs breach
the threshold, yet only the first (Binance–Bybit) is reported. -/
theorem arbitrage_first_breaching_pair_only_witness :
    (1 : ℚ) < |divergence 110 100| ∧ (1 : ℚ) < |divergence 100 90| ∧
    arbitrage_opportunity 110 100 90 1 = some (buySellMsg "Bybit" "Binance") := by
  have h1 : (1 : ℚ) < |divergence 110 100| := by norm_num [divergence]
  have h3 : (1 : ℚ) < |divergence 100 90| := by
    rw [show |divergence 100 90| = |(100 - 90 : ℚ) / 90 * 100| from rfl]
    rw [abs_of_pos (by norm_num)]
    norm_num
  refine ⟨h1, h3, ?_⟩
  rw [(arbitrage_first_breaching_pair_only 110 100 90 1).1 h1]
  simp only [if_pos (show (0 : ℚ) < divergence 110 100 by norm_num [divergence])]

/-- C5: whenever a pair is the reported one, the action is to buy on the
lower-priced exchange and sell on the higher-priced one (for every pair and
both signs), and in the spec's concrete scenario (Binance 100, Bybit 99,
Coinbase 100.5, threshold 0.02) the Binance–Bybit divergence is exactly
100/99 ≈ +1.01 %, breaches, and "buy Bybit, sell Binance" is reported. -/
theorem arbitrage_buy_low_sell_high (bp yp cp th : ℚ)
    (hbp : 0 < bp) (hyp : 0 < yp) (hcp : 0 < cp) :
    (th < |divergence bp yp| →
      (yp < bp → arbitrage_opportunity bp yp cp th = some (buySellMsg "Bybit" "Binance")) ∧
      (bp < yp → arbitrage_opportunity bp yp cp th = some (buySellMsg "Binance" "Bybit"))) ∧
    (¬ th < |divergence bp yp| → th < |divergence bp cp| →
      (cp < bp → arbitrage_opportunity bp yp cp th = some (buySellMsg "Coinbase" "Binance")) ∧
      (bp < cp → arbitrage_opportunity bp yp cp th = some (buySellMsg "Binance" "Coinbase"))) ∧
    (¬ th < |divergence bp yp| → ¬ th < |divergence bp cp| → th < |divergence yp cp| →
      (cp < yp → arbitrage_opportunity bp yp cp th = some (buySellMsg "Coinbase" "Bybit")) ∧
      (yp < cp → arbitrage_opportunity bp yp cp th = some (buySellMsg "Bybit" "Coinbase"))) ∧
    divergence 100 99 = 100 / 99 ∧
    ARBITRAGE_THRESHOLD < |divergence 100 99| ∧
    arbitrage_opportunity 100 99 (201 / 2) ARBITRAGE_THRESHOLD =
      some (buySellMsg "Bybit" "Binance") := by
  have hd : divergence 100 99 = 100 / 99 := by norm_num [divergence]
  have hth : ARBITRAGE_THRESHOLD < |divergence 100 99| := by
    rw [hd, abs_of_pos (by norm_num)]
    norm_num [ARBITRAGE_THRESHOLD]
  refine ⟨fun h1 => ⟨fun hlo => ?_, fun hhi => ?_⟩,
    fun h1 h2 => ⟨fun hlo => ?_, fun hhi => ?_⟩,
    fun h1 h2 h3 => ⟨fun hlo => ?_, fun hhi => ?_⟩, hd, hth, ?_⟩
  · rw [(arbitrage_opportunity_cases bp yp cp th).1 h1]
    simp only [if_pos ((divergence_pos_iff bp yp hyp).2 hlo)]
  · rw [(arbitrage_opportunity_cases bp yp cp th).1 h1]
    simp only [if_neg (not_lt.2 ((divergence_neg_iff bp yp hyp).2 hhi).le)]
  · rw [(arbitrage_opportunity_cases bp yp cp th).2.1 h1 h2]
    simp only [if_pos ((divergence_pos_iff bp cp hcp).2 hlo)]
  · rw [(arbitrage_opportunity_cases bp yp cp th).2.1 h1 h2]
    simp only [if_neg (not_lt.2 ((divergence_neg_iff bp cp hcp).2 hhi).le)]
  · rw [(arbitrage_opportunity_cases bp yp cp th).2.2.1 h1 h2 h3]
    simp only [if_pos ((divergence_pos_iff yp cp hcp).2 hlo)]
  · rw [(arbitrage_opportunity_cases bp yp cp th).2.2.1 h1 h2 h3]
    simp only [if_neg (not_lt.2 ((divergence_neg_iff yp cp hcp).2 hhi).le)]
  · rw [(arbitrage_opportunity_cases 100 99 (201 / 2) ARBITRAGE_THRESHOLD).1 hth]
    simp only [if_pos (show (0 : ℚ) < divergence 100 99 by rw [hd]; norm_num)]

/-- Witness for C5: the spec scenario, obtained by applying the theorem at
Binance 100, Bybit 99, Coinbase 100.5 with the breaching Binance–Bybit pair
and `99 < 100`. -/
theorem arbitrage_buy_low_sell_high_witness :
    arbitrage_opportunity 100 99 (201 / 2) ARBITRAGE_THRESHOLD =
      some (buySellMsg "Bybit" "Binance") := by
  have h := arbitrage_buy_low_sell_high 100 99 (201 / 2) ARBITRAGE_THRESHOLD
    (by norm_num) (by norm_num) (by norm_num)
  exact (h.1 h.2.2.2.2.1).1 (by norm_num)

/-- C3: in every cycle where some fetches fail (`none`) while others succeed,
`cycle` returns without error (no crash), produces no output bundle (no
divergence/leadership/arbitrage for the cycle), appends price and timestamp
only for the exchanges whose fetch succeeded, leaves the failed exchanges'
histories untouched, and leaves every tally unchanged. -/
theorem cycle_failed_fetch_skips (s : LoopState) (bp yp cp : Option ℚ) (t : ℚ)
    (hfail : bp = none ∨ yp = none ∨ cp = none)
    (hsucc : bp.isSome ∨ yp.isSome ∨ cp.isSome) :
    ∃ s', cycle s bp yp cp t = Except.ok (s', none) ∧
      (bp = none → s'.binance_history = s.binance_history ∧
        s'.binance_timestamps = s.binance_timestamps) ∧
      (∀ p, bp = some p → s'.binance_history = dequeAppend HISTORY_SIZE s.binance_history p ∧
        s'.binance_timestamps = dequeAppend HISTORY_SIZE s.binance_timestamps t) ∧
      (yp = none → s'.bybit_history = s.bybit_history ∧
        s'.bybit_timestamps = s.bybit_timestamps) ∧
      (∀ p, yp = some p → s'.bybit_history = dequeAppend HISTORY_SIZE s.bybit_history p ∧
        s'.bybit_timestamps = dequeAppend HISTORY_SIZE s.bybit_timestamps t) ∧
      (cp = none → s'.coinbase_history = s.coinbase_history ∧
        s'.coinbase_timestamps = s.coinbase_timestamps) ∧
      (∀ p, cp = some p → s'.coinbase_history = dequeAppend HISTORY_SIZE s.coinbase_history p ∧
        s'.coinbase_timestamps = dequeAppend HISTORY_SIZE s.coinbase_timestamps t) ∧
      s'.binance_lead_count = s.binance_lead_count ∧
      s'.bybit_lead_count = s.bybit_lead_count ∧
      s'.coinbase_lead_count = s.coinbase_lead_count ∧
      s'.total_checks = s.total_checks := by
  refine ⟨_, cycle_incomplete s bp yp cp t hfail, ?_, ?_, ?_, ?_, ?_, ?_, rfl, rfl, rfl, rfl⟩
  · intro h; subst h; exact ⟨rfl, rfl⟩
  · intro p h; subst h; exact ⟨rfl, rfl⟩
  · intro h; subst h; exact ⟨rfl, rfl⟩
  · intro p h; subst h; exact ⟨rfl, rfl⟩
  · intro h; subst h; exact ⟨rfl, rfl⟩
  · intro p h; subst h; exact ⟨rfl, rfl⟩

/-- Witness for C3: Bybit's fetch fails while Binance's and Coinbase's succeed;
the cycle completes without error and produces no output bundle. -/
theorem cycle_failed_fetch_skips_witness :
    ∃ s', cycle initState (some (100 : ℚ)) none (some 99) 0 = Except.ok (s', none) := by
  obtain ⟨s', h, -⟩ := cycle_failed_fetch_skips initState (some (100 : ℚ)) none (some 99) 0
    (Or.inr (Or.inl rfl)) (Or.inl rfl)
  exact ⟨s', h⟩

/-- C8: TWAP-pattern detection reports no pattern on fewer than `period`
samples; with at least `period ≥ 2` samples it reports a pattern iff the mean
absolute consecutive change over the most recent `period` samples is at most
the threshold; and on constant prices it always reports a pattern for any
non-negative threshold. -/
theorem detect_twap_pattern_spec (prices : List ℚ) (period : Nat) (threshold : ℚ) :
    (prices.length < period → detect_twap_pattern prices period threshold = Except.ok false) ∧
    (2 ≤ period → period ≤ prices.length →
      detect_twap_pattern prices period threshold =
        Except.ok (decide ((consecutiveAbsChanges (lastN period prices)).sum /
          ((consecutiveAbsChanges (lastN period prices)).length : ℚ) ≤ threshold))) ∧
    (∀ (n : Nat) (p : ℚ), 2 ≤ period → period ≤ n → 0 ≤ threshold →
      detect_twap_pattern (List.replicate n p) period threshold = Except.ok true) := by
  refine ⟨fun h => ?_, fun h2 hlen => ?_, fun n p h2 hn hth => ?_⟩
  · unfold detect_twap_pattern
    rw [if_pos h]
  · unfold detect_twap_pattern
    rw [if_neg (not_lt.2 hlen)]
    simp only [pySliceLast, if_neg (show ¬ period = 0 by omega)]
    rw [if_neg (show ¬ (consecutiveAbsChanges (lastN period prices)).length = 0 by
      rw [length_consecutiveAbsChanges, length_lastN]; omega)]
  · have hrec : pySliceLast (List.replicate n p) period = List.replicate period p := by
      simp only [pySliceLast, lastN]
      rw [if_neg (show ¬ period = 0 by omega), List.length_replicate, List.drop_replicate]
      congr 1
      omega
    unfold detect_twap_pattern
    rw [if_neg (by rw [List.length_replicate]; omega)]
    simp only [hrec, consecutiveAbsChanges_replicate]
    rw [if_neg (by rw [List.length_replicate]; omega)]
    congr 1
    rw [List.sum_replicate, smul_zero, zero_div, decide_eq_true_eq]
    exact hth

/-- Witness for C8: an 11-sample buffer is too short for `period = 20`
(no pattern), and 25 constant samples with `period = HISTORY_SIZE` and the
run's threshold `TWAP_THRESHOLD` always show a pattern. -/
theorem detect_twap_pattern_spec_witness :
    detect_twap_pattern (List.replicate 11 (4 : ℚ)) HISTORY_SIZE TWAP_THRESHOLD =
      Except.ok false ∧
    detect_twap_pattern (List.replicate 25 (3 : ℚ)) HISTORY_SIZE TWAP_THRESHOLD =
      Except.ok true := by
  constructor
  · exact (detect_twap_pattern_spec (List.replicate 11 (4 : ℚ)) HISTORY_SIZE
      TWAP_THRESHOLD).1 (by simp [HISTORY_SIZE])
  · exact (detect_twap_pattern_spec (List.replicate 25 (3 : ℚ)) HISTORY_SIZE
      TWAP_THRESHOLD).2.2 25 3 (by norm_num [HISTORY_SIZE]) (by norm_num [HISTORY_SIZE])
      (by norm_num [TWAP_THRESHOLD])

/-- C7: on a non-empty buffer with non-decreasing timestamps and a
non-negative window, TWAP equals the arithmetic mean of the samples whose
timestamp lies in `[newest - period, newest]` (the spec-side window
`twapWindowPrices`, with BOTH bounds), the direction is "Ask" exactly when the
most recent price strictly exceeds that mean and "Bid" otherwise, and on a
single-sample buffer the TWAP is that sample's price with direction "Bid". -/
theorem calculate_twap_mean_of_window (prices timestamps : List ℚ) (period : ℚ)
    (hne : prices ≠ []) (hlen : prices.length = timestamps.length)
    (hmono : timestamps.Sorted (· ≤ ·)) (hper : 0 ≤ period) :
    (∃ endT lastP,
      timestamps.getLast? = some endT ∧ prices.getLast? = some lastP ∧
      calculate_twap prices timestamps period =
        Except.ok
          (some ((twapWindowPrices prices timestamps period endT).sum /
            ((twapWindowPrices prices timestamps period endT).length : ℚ)),
           some (if lastP > (twapWindowPrices prices timestamps period endT).sum /
              ((twapWindowPrices prices timestamps period endT).length : ℚ)
             then "Ask" else "Bid"))) ∧
    (∀ p t : ℚ, calculate_twap [p] [t] period = Except.ok (some p, some "Bid")) := by
  have htne : timestamps ≠ [] := by
    intro h
    rw [h] at hlen
    simp only [List.length_nil] at hlen
    exact hne (List.length_eq_zero.1 hlen)
  have hEnd : timestamps.getLast? = some (timestamps.getLast htne) :=
    List.getLast?_eq_getLast _ htne
  have hLast : prices.getLast? = some (prices.getLast hne) :=
    List.getLast?_eq_getLast _ hne
  have hfil : (prices.zip timestamps).filter
        (fun pt => decide (timestamps.getLast htne - period ≤ pt.2)) =
      (prices.zip timestamps).filter
        (fun pt => decide (timestamps.getLast htne - period ≤ pt.2 ∧
          pt.2 ≤ timestamps.getLast htne)) := by
    apply List.filter_congr
    intro x hx
    have hle : x.2 ≤ timestamps.getLast htne :=
      sorted_le_getLast timestamps hmono x.2 (List.of_mem_zip hx).2 htne
    simp [hle]
  have hnpos : 0 < prices.length := List.length_pos.2 hne
  have hmem : (prices.getLast hne, timestamps.getLast htne) ∈ prices.zip timestamps := by
    have hidx : prices.length - 1 < (prices.zip timestamps).length := by
      rw [List.length_zip]
      omega
    have hval : (prices.zip timestamps)[prices.length - 1] =
        (prices.getLast hne, timestamps.getLast htne) := by
      rw [List.getElem_zip]
      refine Prod.ext ?_ ?_
      · exact (List.getLast_eq_getElem prices hne).symm
      · rw [List.getLast_eq_getElem timestamps htne]
        simp only [hlen]
    exact hval ▸ List.getElem_mem hidx
  have hmemf : (prices.getLast hne, timestamps.getLast htne) ∈
      (prices.zip timestamps).filter
        (fun pt => decide (timestamps.getLast htne - period ≤ pt.2)) := by
    refine List.mem_filter.2 ⟨hmem, ?_⟩
    simp only [decide_eq_true_eq]
    linarith
  have hrelne : ((prices.zip timestamps).filter
      (fun pt => decide (timestamps.getLast htne - period ≤ pt.2))).map Prod.fst ≠ [] := by
    intro hemp
    rw [List.map_eq_nil_iff] at hemp
    rw [hemp] at hmemf
    exact absurd hmemf (List.not_mem_nil _)
  refine ⟨⟨timestamps.getLast htne, prices.getLast hne, hEnd, hLast, ?_⟩, fun p t => ?_⟩
  · simp only [calculate_twap, hEnd, hLast, twapWindowPrices]
    rw [if_neg (by simpa [List.isEmpty_iff] using hrelne), hfil]
  · have hfil1 : List.filter (fun pt => decide (t - period ≤ pt.2)) [(p, t)] = [(p, t)] := by
      rw [List.filter_cons_of_pos]
      · rfl
      · simp only [decide_eq_true_eq]
        linarith
    simp only [calculate_twap, List.getLast?_singleton, List.zip_cons_cons,
      List.zip_nil_left, hfil1, List.map_cons, List.map_nil, List.isEmpty_cons,
      Bool.false_eq_true, if_false, List.sum_cons, List.sum_nil, List.length_cons,
      List.length_nil, add_zero, Nat.cast_one, div_one, gt_iff_lt,
      lt_self_iff_false, if_false]
    norm_num

/-- Witness for C7: a single-sample buffer at price 7 gives TWAP 7 and
direction "Bid". -/
theorem calculate_twap_mean_of_window_witness :
    calculate_twap [(7 : ℚ)] [(0 : ℚ)] TWAP_PERIOD = Except.ok (some 7, some "Bid") :=
  (calculate_twap_mean_of_window [(7 : ℚ)] [(0 : ℚ)] TWAP_PERIOD (by simp)
    (by simp) (List.sorted_singleton 0) (by norm_num [TWAP_PERIOD])).2 7 0

end Arby
